import Mathlib

/-!
Verification development for the LLMRateLimiter repository: a client-side,
distributed rate limiter for metered API consumption.  The repository's
visible source is the public package surface (`src/llmratelimiter/__init__.py`);
the implementation modules (`config`, `connection`, `limiter`, `models`) that
it re-exports are not part of the visible source, so the admission and
accounting engine below is modelled from the specification, faithful to its
words.  The export list is embedded directly from the source.
-/

namespace LLMRL

/-- Modelled from the spec: the error taxonomy of §7 (the modules defining the
concrete error classes are not in the visible source).  Every failure is a
distinct, catchable condition. -/
inductive Err
  | ConnectionFailure
  | Timeout
  | CostExceedsCeiling
  | RecordNotFound
  | InvalidConfiguration
deriving DecidableEq, Repr

/-- Modelled from the spec: the token-per-minute budget shape of a validated
`RateLimitConfig` (§3) — either a single unified `tpm` or a split
`{input_tpm, output_tpm}`.  The `config` module is not in the visible source. -/
inductive TpmMode
  | unified (tpm : Nat)
  | split (input_tpm : Nat) (output_tpm : Nat)
deriving DecidableEq, Repr

/-- Modelled from the spec: a validated per-resource configuration (§3):
`rpm` plus exactly one of the two TPM modes; the window length is fixed at
60 seconds.  The `config` module is not in the visible source. -/
structure RateLimitConfig where
  rpm : Nat
  mode : TpmMode
deriving DecidableEq, Repr

/-- Modelled from the spec: construction-time validation of the configuration
surface (§3, §6, §7): recognized options `rpm`, `tpm`, `input_tpm`,
`output_tpm`; exactly one of unified-TPM or split-TPM mode must be active and
all values must be positive integers, otherwise construction raises
`InvalidConfiguration`.  The `config` module is not in the visible source. -/
def validateConfig (rpm : Nat) (tpm input_tpm output_tpm : Option Nat) :
    Except Err RateLimitConfig :=
  match tpm, input_tpm, output_tpm with
  | some t, none, none =>
      if 0 < rpm ∧ 0 < t then .ok ⟨rpm, .unified t⟩
      else .error .InvalidConfiguration
  | none, some i, some o =>
      if 0 < rpm ∧ 0 < i ∧ 0 < o then .ok ⟨rpm, .split i o⟩
      else .error .InvalidConfiguration
  | _, _, _ => .error .InvalidConfiguration

/-- The literal `__all__` export list of `src/llmratelimiter/__init__.py`. -/
def module_all : List String :=
  ["AcquireResult", "RateLimitConfig", "RateLimitStatus",
   "RateLimiter", "RedisConnectionManager", "RetryConfig"]

/-- Modelled from the spec: one time-bucketed consumption entry of the Window
State (§3): a timestamp (seconds), the consumed amount, and — for entries
created by a split-mode reservation — the `record_id` of the reservation that
touched this bucket, so a later `adjust` can find the same bucket (§4.4).
The store-side window implementation is not in the visible source. -/
structure Entry where
  ts : Nat
  amount : Int
  tag : Option Nat
deriving DecidableEq, Repr

/-- Modelled from the spec: an entry is inside the trailing 60-second window
ending at `now`; entries older than 60 seconds are logically expired (§3). -/
def live (now : Nat) (e : Entry) : Bool :=
  decide (now < e.ts + 60)

/-- Modelled from the spec: the sum of consumption recorded within the
trailing 60-second window ending at `now` (§3, §4.2). -/
def windowSum (now : Nat) (w : List Entry) : Int :=
  ((w.filter (live now)).map Entry.amount).sum

/-- Modelled from the spec: the atomic check of the Window Accountant (§4.2):
can `cost` be admitted right now against `ceiling`, given window `w`? -/
def fits (now : Nat) (w : List Entry) (ceiling cost : Nat) : Bool :=
  decide (windowSum now w + (cost : Int) ≤ (ceiling : Int))

/-- Modelled from the spec: a Reservation Record (§3): unique `record_id`,
the reserved output-token estimate, and a creation timestamp.  It is created
by split-mode `acquire` and consumed (at most once) by `adjust`. -/
structure ResRecord where
  rid : Nat
  outputEstimate : Nat
  ts : Nat
deriving DecidableEq, Repr

/-- Modelled from the spec: the AcquireResult value object (§3, §6): the
`record_id` (present only in split/adjustable mode) and the amounts actually
reserved.  In unified mode the single token amount is carried in
`reserved_input` and `reserved_output` is zero.  The `models` module is not in
the visible source. -/
structure AcquireResult where
  record_id : Option Nat
  reserved_input : Nat
  reserved_output : Nat
deriving DecidableEq, Repr

/-- Modelled from the spec: the four budget dimensions (§4.2): RPM, unified
TPM, input-TPM and output-TPM. -/
inductive Dim
  | rpmD
  | tpmD
  | inputD
  | outputD
deriving DecidableEq, Repr

/-- Modelled from the spec: the shared Window State for one resource — one
window per budget dimension, the outstanding reservation records, and the
monotonic counter issuing fresh record ids.  All of it lives in the
coordination store and is mutated only by atomic operations (§5, §6). -/
structure LimiterState where
  rpmW : List Entry
  tpmW : List Entry
  inW : List Entry
  outW : List Entry
  records : List ResRecord
  nextRid : Nat
deriving DecidableEq, Repr

/-- Modelled from the spec: the empty initial shared state of a resource. -/
def initState : LimiterState :=
  ⟨[], [], [], [], [], 0⟩

/-- Modelled from the spec: the outcome of one atomic admission attempt:
admitted with an `AcquireResult`, or insufficient capacity on the listed
dimensions (the caller would wait in the FIFO queue), or a fatal error. -/
inductive Outcome
  | ok (r : AcquireResult)
  | blocked (dims : List Dim)
  | err (e : Err)
deriving DecidableEq, Repr

/-- Modelled from the spec: the dimensions whose atomic check fails for a
unified-mode request — the request must wait unless this list is empty
(§4.2). -/
def blockedDimsU (rpm tpm now tokens : Nat) (s : LimiterState) : List Dim :=
  (if fits now s.rpmW rpm 1 then [] else [Dim.rpmD]) ++
  (if fits now s.tpmW tpm tokens then [] else [Dim.tpmD])

/-- Modelled from the spec: one atomic unified-mode admission attempt
(§4.2, §6): if the request's cost exceeds a ceiling itself it fails fast with
`CostExceedsCeiling`; otherwise check-and-increment on the RPM window (unit
cost 1) and the unified TPM window in one atomic step — either both record or
neither does.  The `limiter` module is not in the visible source. -/
def tryAcquireUnified (rpm tpm now tokens : Nat) (s : LimiterState) :
    Outcome × LimiterState :=
  if tpm < tokens ∨ rpm < 1 then (.err .CostExceedsCeiling, s)
  else if (blockedDimsU rpm tpm now tokens s).isEmpty then
    (.ok ⟨none, tokens, 0⟩,
     { s with rpmW := ⟨now, 1, none⟩ :: s.rpmW,
              tpmW := ⟨now, (tokens : Int), none⟩ :: s.tpmW })
  else (.blocked (blockedDimsU rpm tpm now tokens s), s)

/-- Modelled from the spec: the dimensions whose atomic check fails for a
split-mode request — RPM, input tokens, and (only when an output estimate is
supplied) output tokens (§4.2). -/
def blockedDimsS (rpm itpm otpm now input_tokens : Nat)
    (output_tokens : Option Nat) (s : LimiterState) : List Dim :=
  (if fits now s.rpmW rpm 1 then [] else [Dim.rpmD]) ++
  (if fits now s.inW itpm input_tokens then [] else [Dim.inputD]) ++
  (match output_tokens with
   | none => []
   | some o => if fits now s.outW otpm o then [] else [Dim.outputD])

/-- Modelled from the spec: one atomic split-mode admission attempt (§4.2,
§4.4, §6): fail fast with `CostExceedsCeiling` when a single request's cost
exceeds a dimension's ceiling itself; otherwise admit against RPM, input
tokens and (if supplied) output tokens as independent dimensions in the same
atomic step — either all record or none does.  On success a fresh
`record_id` is issued, the output bucket is tagged with it and a reservation
record is stored for later adjustment.  The `limiter` module is not in the
visible source. -/
def tryAcquireSplit (rpm itpm otpm now input_tokens : Nat)
    (output_tokens : Option Nat) (s : LimiterState) :
    Outcome × LimiterState :=
  if itpm < input_tokens ∨ otpm < output_tokens.getD 0 ∨ rpm < 1 then
    (.err .CostExceedsCeiling, s)
  else if (blockedDimsS rpm itpm otpm now input_tokens output_tokens s).isEmpty then
    (.ok ⟨some s.nextRid, input_tokens, output_tokens.getD 0⟩,
     { s with rpmW := ⟨now, 1, none⟩ :: s.rpmW,
              inW := ⟨now, (input_tokens : Int), none⟩ :: s.inW,
              outW := ⟨now, (output_tokens.getD 0 : Int), some s.nextRid⟩ :: s.outW,
              records := ⟨s.nextRid, output_tokens.getD 0, now⟩ :: s.records,
              nextRid := s.nextRid + 1 })
  else (.blocked (blockedDimsS rpm itpm otpm now input_tokens output_tokens s), s)

/-- Modelled from the spec: the adjustment step of the Reservation/Adjustment
Protocol (§4.4, §6): look up the reservation record; if it does not exist
(never issued, already adjusted) or has expired from the window, fail with
`RecordNotFound` leaving all state unchanged; otherwise compute
`delta = actual - reserved_estimate`, atomically apply the delta to the same
window bucket(s) the reservation touched, and finalize the record so it can
never be adjusted again. -/
def adjust (now rid actual_output : Nat) (s : LimiterState) :
    Except Err Unit × LimiterState :=
  match s.records.find? (fun r => r.rid == rid) with
  | none => (.error .RecordNotFound, s)
  | some r =>
      if live now ⟨r.ts, 0, none⟩ then
        let delta : Int := (actual_output : Int) - (r.outputEstimate : Int)
        (.ok (),
         { s with outW := s.outW.map (fun e =>
                    if e.tag == some rid then { e with amount := e.amount + delta }
                    else e),
                  records := s.records.filter (fun r2 => r2.rid != rid) })
      else (.error .RecordNotFound, s)

/-- Modelled from the spec: the RateLimitStatus read-only snapshot (§3, §6):
remaining RPM/TPM capacity in the current window; never mutates state and
never fails.  The `models` module is not in the visible source. -/
structure RateLimitStatus where
  remaining_rpm : Int
  remaining_tpm : Int
  remaining_input_tpm : Int
  remaining_output_tpm : Int
deriving DecidableEq, Repr

/-- Modelled from the spec: `status()` — a non-blocking snapshot of remaining
capacity per dimension (§6); a pure read of the window state. -/
def status (cfg : RateLimitConfig) (now : Nat) (s : LimiterState) :
    RateLimitStatus :=
  match cfg.mode with
  | .unified t =>
      ⟨(cfg.rpm : Int) - windowSum now s.rpmW,
       (t : Int) - windowSum now s.tpmW, 0, 0⟩
  | .split i o =>
      ⟨(cfg.rpm : Int) - windowSum now s.rpmW, 0,
       (i : Int) - windowSum now s.inW,
       (o : Int) - windowSum now s.outW⟩

/-- Modelled from the spec: the FIFO Admission Queue state for one resource
(§4.3): a monotonically increasing per-resource ticket sequence counter and
the arrival-ordered list of outstanding (waiting) tickets.  The queue module
is not in the visible source. -/
structure QueueState where
  nextTicket : Nat
  waiting : List Nat
deriving DecidableEq, Repr

/-- Modelled from the spec: the empty FIFO queue. -/
def initQueue : QueueState :=
  ⟨0, []⟩

/-- Modelled from the spec: a blocked `acquire` obtains an arrival ticket — a
monotonically increasing sequence number per resource (§4.3) — and joins the
back of the waiting line. -/
def arrive (q : QueueState) : Nat × QueueState :=
  (q.nextTicket, ⟨q.nextTicket + 1, q.waiting ++ [q.nextTicket]⟩)

/-- Modelled from the spec: withdrawal of a ticket (timeout or cancellation,
§4.3): the ticket is removed; the remaining waiters keep their order. -/
def withdraw (t : Nat) (q : QueueState) : QueueState :=
  ⟨q.nextTicket, q.waiting.filter (fun x => x != t)⟩

/-- Modelled from the spec: when capacity frees, only the holder of the
lowest outstanding ticket is allowed to attempt admission (§4.3); on
admission its ticket is discarded. -/
def admitNext (q : QueueState) : Option Nat × QueueState :=
  match q.waiting with
  | [] => (none, q)
  | t :: rest => (some t, ⟨q.nextTicket, rest⟩)

/-- Modelled from the spec: the events the FIFO queue reacts to — an arrival,
a withdrawal of a given ticket, and an admission opportunity. -/
inductive QEvent
  | arriveE
  | withdrawE (t : Nat)
  | admitE
deriving DecidableEq, Repr

/-- Modelled from the spec: one queue transition. -/
def stepQ (q : QueueState) : QEvent → QueueState
  | .arriveE => (arrive q).2
  | .withdrawE t => withdraw t q
  | .admitE => (admitNext q).2

/-- Modelled from the spec: the queue state reached from the empty queue by a
sequence of events. -/
def runQ (es : List QEvent) : QueueState :=
  es.foldl stepQ initQueue

/-- Modelled from the spec: the retry-policy value object of the Connection
Layer (§4.1; `RetryConfig(max_retries=3, base_delay=0.1)` in the source
docstring): number of attempts, base delay, and the cap on backoff delays.
The `connection` module is not in the visible source. -/
structure RetryConfig where
  max_retries : Nat
  base_delay : ℚ
  max_delay : ℚ
deriving DecidableEq, Repr

/-- Modelled from the spec: the exponential-backoff delay before retrying
after a failed attempt: `base_delay * 2 ^ attempt`, capped (§4.1). -/
def backoffDelay (cfg : RetryConfig) (attempt : Nat) : ℚ :=
  min (cfg.base_delay * 2 ^ attempt) cfg.max_delay

/-- Modelled from the spec: the outcome of a single store call attempt —
success, a transient (network/timeout/connection-reset class) failure, or a
non-transient error that must surface immediately (§4.1, §7). -/
inductive CallOutcome (α : Type)
  | success (v : α)
  | transient
  | fatal (e : Err)
deriving DecidableEq, Repr

/-- Modelled from the spec: the retry loop of the Connection Layer (§4.1):
attempt the call; on success return the value; on a non-transient error
surface it immediately; on a transient failure sleep the backoff delay and
retry while retries remain, surfacing `ConnectionFailure` once exhausted.
Returns the result together with the list of delays slept. -/
def retryGo (cfg : RetryConfig) (call : Nat → CallOutcome α) :
    Nat → Nat → Except Err α × List ℚ
  | a, 0 =>
    match call a with
    | .success v => (.ok v, [])
    | .fatal e => (.error e, [])
    | .transient => (.error .ConnectionFailure, [])
  | a, f + 1 =>
    match call a with
    | .success v => (.ok v, [])
    | .fatal e => (.error e, [])
    | .transient =>
        (( retryGo cfg call (a + 1) f).1,
         backoffDelay cfg a :: (retryGo cfg call (a + 1) f).2)

/-- Modelled from the spec: `execute` with retries — up to `max_retries`
attempts in total, exponential backoff between the attempts (§4.1). -/
def executeWithRetry (cfg : RetryConfig) (call : Nat → CallOutcome α) :
    Except Err α × List ℚ :=
  retryGo cfg call 0 (cfg.max_retries - 1)

/-- Modelled from the spec: run a timestamped sequence of unified-mode
`acquire` attempts against the shared state; attempts that do not admit
leave the state unchanged (§4.2, §8). -/
def runUnified (rpm tpm : Nat) : List (Nat × Nat) → LimiterState → LimiterState
  | [], s => s
  | (now, tokens) :: ops, s =>
      runUnified rpm tpm ops (tryAcquireUnified rpm tpm now tokens s).2

/-- Modelled from the spec: run a timestamped sequence of split-mode
`acquire` attempts against the shared state (§4.2, §8). -/
def runSplit (rpm itpm otpm : Nat) :
    List (Nat × Nat × Option Nat) → LimiterState → LimiterState
  | [], s => s
  | (now, inp, out) :: ops, s =>
      runSplit rpm itpm otpm ops (tryAcquireSplit rpm itpm otpm now inp out s).2

/-- The time after executing a timestamped operation list, starting at `t`:
the timestamp of the last operation, or `t` when there is none. -/
def endTime (t : Nat) : List (Nat × α) → Nat
  | [] => t
  | (n, _) :: ops => endTime n ops

/-- The timestamps of an operation list are nondecreasing, starting no
earlier than `t`. -/
def timesMono (t : Nat) : List (Nat × α) → Bool
  | [] => true
  | (n, _) :: ops => decide (t ≤ n) && timesMono n ops

/-- The bookkeeping invariant of one budget window at time `t`: all entries
were recorded no later than `t` with nonnegative amounts, and the trailing
60-second sum at any time from `t` on is within the ceiling. -/
def WindowOk (t ceiling : Nat) (w : List Entry) : Prop :=
  (∀ e ∈ w, e.ts ≤ t ∧ 0 ≤ e.amount) ∧
  ∀ q, t ≤ q → windowSum q w ≤ (ceiling : Int)

/-- The unified-mode windows both satisfy their bookkeeping invariants. -/
def StateOkU (rpm tpm t : Nat) (s : LimiterState) : Prop :=
  WindowOk t rpm s.rpmW ∧ WindowOk t tpm s.tpmW

/-- The split-mode windows all satisfy their bookkeeping invariants. -/
def StateOkS (rpm itpm otpm t : Nat) (s : LimiterState) : Prop :=
  WindowOk t rpm s.rpmW ∧ WindowOk t itpm s.inW ∧ WindowOk t otpm s.outW

/-- The FIFO queue invariant: outstanding tickets are strictly increasing in
arrival order, and all of them were issued by the sequence counter. -/
def queueInv (q : QueueState) : Prop :=
  q.waiting.Pairwise (· < ·) ∧ ∀ t ∈ q.waiting, t < q.nextTicket

/-! ### Window lemmas -/

theorem windowSum_cons (now : Nat) (e : Entry) (w : List Entry) :
    windowSum now (e :: w) =
      (if live now e then e.amount else 0) + windowSum now w := by
  by_cases h : live now e
  · simp [windowSum, List.filter_cons, h]
  · simp [windowSum, List.filter_cons, h]

theorem live_of_live_ge {now q : Nat} {e : Entry} (hq : now ≤ q)
    (h : live q e = true) : live now e = true := by
  unfold live at h ⊢
  simp only [decide_eq_true_eq] at h ⊢
  omega

/-- Looking at the same window later never increases the trailing-window sum,
as long as all recorded amounts are nonnegative: entries only expire. -/
theorem windowSum_anti (w : List Entry) (now q : Nat) (hle : now ≤ q)
    (hpos : ∀ e ∈ w, 0 ≤ e.amount) : windowSum q w ≤ windowSum now w := by
  induction w with
  | nil => simp [windowSum]
  | cons e w ih =>
      have hpos_e : 0 ≤ e.amount := hpos e (List.mem_cons_self e w)
      have ih2 := ih (fun x hx => hpos x (List.mem_cons_of_mem e hx))
      rw [windowSum_cons, windowSum_cons]
      by_cases h : live q e
      · rw [if_pos h, if_pos (live_of_live_ge hle h)]
        linarith
      · rw [if_neg h]
        by_cases h2 : live now e
        · rw [if_pos h2]; linarith
        · rw [if_neg h2]; linarith

theorem WindowOk.mono {t t2 ceiling : Nat} {w : List Entry}
    (h : WindowOk t ceiling w) (ht : t ≤ t2) : WindowOk t2 ceiling w :=
  ⟨fun e he => ⟨le_trans (h.1 e he).1 ht, (h.1 e he).2⟩,
   fun q hq => h.2 q (le_trans ht hq)⟩

theorem windowOk_nil (t ceiling : Nat) : WindowOk t ceiling [] :=
  ⟨fun e he => absurd he (List.not_mem_nil e),
   fun q _ => by simp [windowSum]⟩

/-- Recording `cost` at time `now` keeps the window within its ceiling,
provided the atomic check `window sum + cost ≤ ceiling` held at `now`. -/
theorem WindowOk.push {t ceiling : Nat} {w : List Entry}
    (h : WindowOk t ceiling w) {now : Nat} (ht : t ≤ now) (cost : Nat)
    (hfit : windowSum now w + (cost : Int) ≤ (ceiling : Int))
    (tag : Option Nat) :
    WindowOk now ceiling (⟨now, (cost : Int), tag⟩ :: w) := by
  constructor
  · intro e he
    rcases List.mem_cons.mp he with rfl | he2
    · exact ⟨le_refl now, Int.natCast_nonneg cost⟩
    · exact ⟨le_trans (h.1 e he2).1 ht, (h.1 e he2).2⟩
  · intro q hq
    have hanti := windowSum_anti w now q hq (fun e he => (h.1 e he).2)
    rw [windowSum_cons]
    by_cases hl : live q ⟨now, (cost : Int), tag⟩
    · rw [if_pos hl]
      simp only
      linarith
    · rw [if_neg hl]
      have hcost : (0 : Int) ≤ (cost : Int) := Int.natCast_nonneg cost
      linarith

theorem fits_le {now : Nat} {w : List Entry} {ceiling cost : Nat}
    (h : fits now w ceiling cost = true) :
    windowSum now w + (cost : Int) ≤ (ceiling : Int) :=
  of_decide_eq_true h

theorem stepU_ok {rpm tpm t now tokens : Nat} {s : LimiterState}
    (h : StateOkU rpm tpm t s) (ht : t ≤ now) :
    StateOkU rpm tpm now (tryAcquireUnified rpm tpm now tokens s).2 := by
  unfold tryAcquireUnified
  by_cases hc : tpm < tokens ∨ rpm < 1
  · rw [if_pos hc]
    exact ⟨h.1.mono ht, h.2.mono ht⟩
  · rw [if_neg hc]
    by_cases hd : (blockedDimsU rpm tpm now tokens s).isEmpty = true
    · rw [if_pos hd]
      have h1 : fits now s.rpmW rpm 1 = true := by
        by_contra h1
        simp [blockedDimsU, h1] at hd
      have h2 : fits now s.tpmW tpm tokens = true := by
        by_contra h2
        simp [blockedDimsU, h2] at hd
      exact ⟨h.1.push ht 1 (fits_le h1) none, h.2.push ht tokens (fits_le h2) none⟩
    · rw [if_neg hd]
      exact ⟨h.1.mono ht, h.2.mono ht⟩

theorem stepS_ok {rpm itpm otpm t now inp : Nat} {out : Option Nat}
    {s : LimiterState}
    (h : StateOkS rpm itpm otpm t s) (ht : t ≤ now) :
    StateOkS rpm itpm otpm now (tryAcquireSplit rpm itpm otpm now inp out s).2 := by
  obtain ⟨hr, hi, ho⟩ := h
  unfold tryAcquireSplit
  by_cases hc : itpm < inp ∨ otpm < out.getD 0 ∨ rpm < 1
  · rw [if_pos hc]
    exact ⟨hr.mono ht, hi.mono ht, ho.mono ht⟩
  · rw [if_neg hc]
    by_cases hd : (blockedDimsS rpm itpm otpm now inp out s).isEmpty = true
    · rw [if_pos hd]
      have h1 : fits now s.rpmW rpm 1 = true := by
        by_contra h1
        simp [blockedDimsS, h1] at hd
      have h2 : fits now s.inW itpm inp = true := by
        by_contra h2
        simp [blockedDimsS, h2] at hd
      refine ⟨hr.push ht 1 (fits_le h1) none, hi.push ht inp (fits_le h2) none, ?_⟩
      cases out with
      | none =>
          have hfit0 : windowSum now s.outW + ((0 : Nat) : Int) ≤ (otpm : Int) := by
            have := ho.2 now ht
            simpa using this
          exact ho.push ht 0 hfit0 (some s.nextRid)
      | some o =>
          have h3 : fits now s.outW otpm o = true := by
            by_contra h3
            simp [blockedDimsS, h3] at hd
          exact ho.push ht o (fits_le h3) (some s.nextRid)
    · rw [if_neg hd]
      exact ⟨hr.mono ht, hi.mono ht, ho.mono ht⟩

theorem runUnified_ok (rpm tpm : Nat) :
    ∀ (ops : List (Nat × Nat)) (t : Nat) (s : LimiterState),
      StateOkU rpm tpm t s → timesMono t ops = true →
      StateOkU rpm tpm (endTime t ops) (runUnified rpm tpm ops s)
  | [], _, _, h, _ => h
  | (now, tok) :: ops, t, s, h, hch => by
      rw [timesMono, Bool.and_eq_true, decide_eq_true_eq] at hch
      exact runUnified_ok rpm tpm ops now _ (stepU_ok h hch.1) hch.2

theorem runSplit_ok (rpm itpm otpm : Nat) :
    ∀ (ops : List (Nat × Nat × Option Nat)) (t : Nat) (s : LimiterState),
      StateOkS rpm itpm otpm t s → timesMono t ops = true →
      StateOkS rpm itpm otpm (endTime t ops) (runSplit rpm itpm otpm ops s)
  | [], _, _, h, _ => h
  | (now, inp, out) :: ops, t, s, h, hch => by
      rw [timesMono, Bool.and_eq_true, decide_eq_true_eq] at hch
      exact runSplit_ok rpm itpm otpm ops now _ (stepS_ok h hch.1) hch.2

/-- C1: For every sequence of `acquire` calls against one resource — unified
or split mode, timestamps nondecreasing — the sum of admitted costs within
any trailing 60-second window never exceeds the configured ceiling for that
dimension (RPM, TPM, input-TPM, output-TPM); consumption entries older than
60 seconds are excluded from the sum. -/
theorem C1_window_never_exceeds_ceiling
    (rpm tpm itpm otpm : Nat)
    (opsU : List (Nat × Nat)) (opsS : List (Nat × Nat × Option Nat))
    (q1 q2 : Nat)
    (hU : timesMono 0 opsU = true)
    (hS : timesMono 0 opsS = true)
    (hq1 : endTime 0 opsU ≤ q1) (hq2 : endTime 0 opsS ≤ q2) :
    (windowSum q1 (runUnified rpm tpm opsU initState).rpmW ≤ (rpm : Int) ∧
     windowSum q1 (runUnified rpm tpm opsU initState).tpmW ≤ (tpm : Int)) ∧
    (windowSum q2 (runSplit rpm itpm otpm opsS initState).rpmW ≤ (rpm : Int) ∧
     windowSum q2 (runSplit rpm itpm otpm opsS initState).inW ≤ (itpm : Int) ∧
     windowSum q2 (runSplit rpm itpm otpm opsS initState).outW ≤ (otpm : Int)) ∧
    (∀ (w : List Entry) (e : Entry), ¬ q1 < e.ts + 60 →
       windowSum q1 (e :: w) = windowSum q1 w) := by
  have hu := runUnified_ok rpm tpm opsU 0 initState
    ⟨windowOk_nil 0 rpm, windowOk_nil 0 tpm⟩ hU
  have hs := runSplit_ok rpm itpm otpm opsS 0 initState
    ⟨windowOk_nil 0 rpm, windowOk_nil 0 itpm, windowOk_nil 0 otpm⟩ hS
  refine ⟨⟨hu.1.2 q1 hq1, hu.2.2 q1 hq1⟩,
          ⟨hs.1.2 q2 hq2, hs.2.1.2 q2 hq2, hs.2.2.2 q2 hq2⟩, ?_⟩
  intro w e he
  have hl : ¬ live q1 e = true := by
    simp only [live, decide_eq_true_eq]
    exact he
  rw [windowSum_cons, if_neg hl, zero_add]

/-- Witness for C1 at a concrete trace: unified `rpm=2, tpm=1000` with three
calls, split `input_tpm=10000, output_tpm=2000` with two calls. -/
theorem C1_window_never_exceeds_ceiling_witness :
    windowSum 10 (runUnified 2 1000 [(0, 100), (5, 200), (10, 900)]
        initState).tpmW ≤ ((1000 : Nat) : Int) :=
  (C1_window_never_exceeds_ceiling 2 1000 10000 2000
    [(0, 100), (5, 200), (10, 900)] [(0, 9000, some 500), (0, 500, some 1600)]
    10 0 (by decide) (by decide) (by decide) (by decide)).1.2

/-! ### FIFO queue lemmas -/

theorem queueInv_init : queueInv initQueue :=
  ⟨List.Pairwise.nil, fun t ht => absurd ht (List.not_mem_nil t)⟩

theorem queueInv_step {q : QueueState} (h : queueInv q) (e : QEvent) :
    queueInv (stepQ q e) := by
  obtain ⟨n, w⟩ := q
  obtain ⟨h1, h2⟩ := h
  cases e with
  | arriveE =>
      constructor
      · simp only [stepQ, arrive]
        rw [List.pairwise_append]
        refine ⟨h1, List.pairwise_singleton _ _, ?_⟩
        intro a ha b hb
        rw [List.mem_singleton] at hb
        subst hb
        exact h2 a ha
      · intro t ht
        simp only [stepQ, arrive] at ht ⊢
        rcases List.mem_append.mp ht with ht2 | ht2
        · exact Nat.lt_succ_of_lt (h2 t ht2)
        · rw [List.mem_singleton] at ht2
          subst ht2
          exact Nat.lt_succ_self _
  | withdrawE t =>
      exact ⟨h1.sublist (List.filter_sublist _),
             fun x hx => h2 x (List.mem_of_mem_filter hx)⟩
  | admitE =>
      cases w with
      | nil => exact ⟨h1, h2⟩
      | cons t rest =>
          refine ⟨h1.of_cons, ?_⟩
          intro x hx
          exact h2 x (List.mem_cons_of_mem t hx)

theorem runQ_inv_aux :
    ∀ (es : List QEvent) (q : QueueState),
      queueInv q → queueInv (es.foldl stepQ q)
  | [], _, h => h
  | e :: es, q, h => runQ_inv_aux es (stepQ q e) (queueInv_step h e)

theorem runQ_inv (es : List QEvent) : queueInv (runQ es) :=
  runQ_inv_aux es initQueue queueInv_init

/-- C2: FIFO ordering.  In any reachable queue state, when ticket `b` is the
one `admitNext` admits, every earlier-arrived ticket `a < b` is no longer
waiting — it was admitted or withdrawn before, so a later arrival is never
admitted while an earlier one still waits; and withdrawal removes exactly the
withdrawn ticket, leaving the remaining waiters in their original order (a
sublist of the previous waiting line). -/
theorem C2_fifo_admission_order (es : List QEvent) (a b : Nat)
    (q2 : QueueState) (t : Nat) (q3 : QueueState)
    (hadm : admitNext (runQ es) = (some b, q2)) (hab : a < b) :
    a ∉ (runQ es).waiting ∧ a ∉ q2.waiting ∧
      (withdraw t q3).waiting.Sublist q3.waiting := by
  have hinv := runQ_inv es
  rcases hw : (runQ es).waiting with _ | ⟨c, rest⟩
  · simp only [admitNext, hw] at hadm
    exact absurd (congrArg Prod.fst hadm) (by simp)
  · simp only [admitNext, hw, Prod.mk.injEq, Option.some.injEq] at hadm
    obtain ⟨hcb, hq2⟩ := hadm
    subst hcb
    have hpw := hinv.1
    rw [hw] at hpw
    have hrest : ∀ x ∈ rest, c < x := fun x hx =>
      List.rel_of_pairwise_cons hpw hx
    have hnr : a ∉ rest := fun hx => absurd (hrest a hx) (by omega)
    refine ⟨?_, ?_, List.filter_sublist _⟩
    · intro hx
      rcases List.mem_cons.mp hx with rfl | hx2
      · exact absurd hab (lt_irrefl a)
      · exact hnr hx2
    · rw [← hq2]
      exact hnr

/-- Witness for C2: tickets 0 and 1 arrive, ticket 0 is withdrawn, ticket 2
arrives; the next admission then admits ticket 1, and ticket 0 is no longer
waiting. -/
theorem C2_fifo_admission_order_witness :
    (0 : Nat) ∉ (runQ [.arriveE, .arriveE, .withdrawE 0, .arriveE]).waiting :=
  (C2_fifo_admission_order [.arriveE, .arriveE, .withdrawE 0, .arriveE]
    0 1 ⟨3, [2]⟩ 0 ⟨2, [0, 1]⟩ (by decide) (by decide)).1

/-! ### Split-mode atomicity and the adjustment protocol -/

/-- C3: In split-TPM mode every `acquire` admits against the input-token
dimension and (when an output estimate is supplied) the output-token
dimension in one atomic step: on success consumption is recorded on both
window states at once; any non-admitted attempt leaves the shared state
completely unchanged; and when only the output dimension lacks headroom the
attempt blocks on the output dimension alone — the input dimension is
neither charged nor blamed. -/
theorem C3_split_mode_atomic (rpm itpm otpm now inp : Nat) (out : Option Nat)
    (s : LimiterState) :
    (∀ r s2, tryAcquireSplit rpm itpm otpm now inp out s = (.ok r, s2) →
        s2.inW = ⟨now, (inp : Int), none⟩ :: s.inW ∧
        s2.outW = ⟨now, ((out.getD 0 : Nat) : Int), some s.nextRid⟩ :: s.outW) ∧
    ((∀ r : AcquireResult, (tryAcquireSplit rpm itpm otpm now inp out s).1 ≠ .ok r) →
        (tryAcquireSplit rpm itpm otpm now inp out s).2 = s) ∧
    (∀ o : Nat, out = some o →
        ¬ (itpm < inp ∨ otpm < o ∨ rpm < 1) →
        fits now s.rpmW rpm 1 = true →
        fits now s.inW itpm inp = true →
        fits now s.outW otpm o = false →
        tryAcquireSplit rpm itpm otpm now inp out s =
          (.blocked [Dim.outputD], s)) := by
  refine ⟨?_, ?_, ?_⟩
  · intro r s2 heq
    unfold tryAcquireSplit at heq
    by_cases hc : itpm < inp ∨ otpm < out.getD 0 ∨ rpm < 1
    · rw [if_pos hc] at heq
      exact absurd (congrArg Prod.fst heq) (by simp)
    · rw [if_neg hc] at heq
      by_cases hd : (blockedDimsS rpm itpm otpm now inp out s).isEmpty = true
      · rw [if_pos hd] at heq
        have hs2 := (congrArg Prod.snd heq).symm
        subst hs2
        exact ⟨rfl, rfl⟩
      · rw [if_neg hd] at heq
        exact absurd (congrArg Prod.fst heq) (by simp)
  · intro hnot
    unfold tryAcquireSplit at hnot ⊢
    by_cases hc : itpm < inp ∨ otpm < out.getD 0 ∨ rpm < 1
    · rw [if_pos hc]
    · rw [if_neg hc] at hnot ⊢
      by_cases hd : (blockedDimsS rpm itpm otpm now inp out s).isEmpty = true
      · rw [if_pos hd] at hnot
        exact absurd rfl (hnot _)
      · rw [if_neg hd]
  · intro o ho hc h1 h2 h3
    subst ho
    have hdim : blockedDimsS rpm itpm otpm now inp (some o) s = [Dim.outputD] := by
      simp [blockedDimsS, h1, h2, h3]
    unfold tryAcquireSplit
    rw [if_neg (by simpa using hc), hdim]
    rfl

/-- Witness for C3 at the spec scenario: `input_tpm=10000, output_tpm=2000`;
after `acquire(input=9000, output=500)` succeeds, `acquire(input=500,
output=1600)` blocks only on the output dimension and changes nothing. -/
theorem C3_split_mode_atomic_witness :
    tryAcquireSplit 100 10000 2000 0 500 (some 1600)
        (tryAcquireSplit 100 10000 2000 0 9000 (some 500) initState).2 =
      (.blocked [Dim.outputD],
       (tryAcquireSplit 100 10000 2000 0 9000 (some 500) initState).2) :=
  (C3_split_mode_atomic 100 10000 2000 0 500 (some 1600)
      (tryAcquireSplit 100 10000 2000 0 9000 (some 500) initState).2).2.2
    1600 rfl (by decide) (by decide) (by decide) (by decide)

/-- Updating only the buckets tagged by `rid` leaves a window without such
buckets unchanged. -/
theorem map_adjust_untagged {rid : Nat} {delta : Int} :
    ∀ (l : List Entry), (∀ e ∈ l, e.tag ≠ some rid) →
      l.map (fun e => if e.tag == some rid
                      then { e with amount := e.amount + delta } else e) = l
  | [], _ => rfl
  | e :: l, h => by
      have hhead : (e.tag == some rid) = false :=
        beq_eq_false_iff_ne.mpr (h e (List.mem_cons_self e l))
      rw [List.map_cons, hhead]
      simp only [Bool.false_eq_true, if_false]
      rw [map_adjust_untagged l (fun x hx => h x (List.mem_cons_of_mem e hx))]

/-- C4: a successful split-mode `acquire` with an output estimate, followed
by one `adjust` with the actual output cost, leaves the total recorded
output consumption equal to the actual cost: the delta
`actual - reserved_estimate` is applied to the very bucket the reservation
touched (which then holds exactly `actual`), no ceiling is re-checked, and
every other bucket is untouched. -/
theorem C4_adjust_reconciles_estimate
    (rpm itpm otpm now now2 inp est actual : Nat)
    (s : LimiterState) (r : AcquireResult) (s1 : LimiterState)
    (hacq : tryAcquireSplit rpm itpm otpm now inp (some est) s = (.ok r, s1))
    (hfresh : ∀ e ∈ s.outW, e.tag ≠ some s.nextRid)
    (hlive : now2 < now + 60) :
    (adjust now2 s.nextRid actual s1).1 = .ok () ∧
    (adjust now2 s.nextRid actual s1).2.outW =
      ⟨now, (actual : Int), some s.nextRid⟩ :: s.outW ∧
    windowSum now2 (adjust now2 s.nextRid actual s1).2.outW =
      (actual : Int) + windowSum now2 s.outW := by
  unfold tryAcquireSplit at hacq
  simp only [Option.getD_some] at hacq
  by_cases hc : itpm < inp ∨ otpm < est ∨ rpm < 1
  · rw [if_pos hc] at hacq
    exact absurd (congrArg Prod.fst hacq) (by simp)
  · rw [if_neg hc] at hacq
    by_cases hd : (blockedDimsS rpm itpm otpm now inp (some est) s).isEmpty = true
    · rw [if_pos hd] at hacq
      have hs1 := (congrArg Prod.snd hacq).symm
      subst hs1
      have hfind :
          (List.find? (fun r2 => r2.rid == s.nextRid)
            (⟨s.nextRid, est, now⟩ :: s.records)) = some ⟨s.nextRid, est, now⟩ := by
        simp [List.find?]
      have hl : live now2 ⟨now, (est : Int), some s.nextRid⟩ = true := by
        simp only [live, decide_eq_true_eq]
        exact hlive
      have houtW :
          (adjust now2 s.nextRid actual
              { s with rpmW := ⟨now, 1, none⟩ :: s.rpmW,
                       inW := ⟨now, (inp : Int), none⟩ :: s.inW,
                       outW := ⟨now, (est : Int), some s.nextRid⟩ :: s.outW,
                       records := ⟨s.nextRid, est, now⟩ :: s.records,
                       nextRid := s.nextRid + 1 }).2.outW =
            ⟨now, (actual : Int), some s.nextRid⟩ :: s.outW := by
        unfold adjust
        rw [hfind]
        simp only
        rw [if_pos (by simp only [live, decide_eq_true_eq]; exact hlive)]
        simp only [List.map_cons, beq_self_eq_true, if_pos]
        rw [map_adjust_untagged s.outW hfresh]
        have hamt : (est : Int) + ((actual : Int) - (est : Int)) = (actual : Int) := by
          omega
        rw [hamt]
      refine ⟨?_, houtW, ?_⟩
      · unfold adjust
        rw [hfind]
        simp only
        rw [if_pos (by simp only [live, decide_eq_true_eq]; exact hlive)]
      · rw [houtW, windowSum_cons]
        rw [if_pos (show live now2 ⟨now, (actual : Int), some s.nextRid⟩ = true by
          simp only [live, decide_eq_true_eq]; exact hlive)]
    · rw [if_neg hd] at hacq
      exact absurd (congrArg Prod.fst hacq) (by simp)

/-- Witness for C4 at the spec round-trip: `acquire(input=5000,
output_estimate=1000)` then `adjust(record_id, actual_output=1500)` leaves a
total recorded output consumption of exactly 1500. -/
theorem C4_adjust_reconciles_estimate_witness :
    windowSum 10 (adjust 10 0 1500
        (tryAcquireSplit 100 10000 2000 0 5000 (some 1000) initState).2).2.outW =
      ((1500 : Nat) : Int) + windowSum 10 (initState).outW :=
  (C4_adjust_reconciles_estimate 100 10000 2000 0 10 5000 1000 1500 initState
      ⟨some 0, 5000, 1000⟩
      (tryAcquireSplit 100 10000 2000 0 5000 (some 1000) initState).2
      (by decide) (by decide) (by decide)).2.2

/-- An `adjust` whose `record_id` matches no outstanding record fails with
`RecordNotFound` and leaves the state unchanged. -/
theorem adjust_not_found {now rid a : Nat} {s : LimiterState}
    (h : ∀ rec ∈ s.records, rec.rid ≠ rid) :
    adjust now rid a s = (.error .RecordNotFound, s) := by
  have hf : s.records.find? (fun r2 => r2.rid == rid) = none :=
    List.find?_eq_none.mpr (fun x hx => by simpa using h x hx)
  unfold adjust
  rw [hf]

/-- C5: every record may be adjusted at most once.  An `adjust` targeting a
`record_id` that was never issued, or whose record has expired from the
window, fails with `RecordNotFound` and leaves all state unchanged; and after
a successful `adjust`, a second `adjust` of the same `record_id` fails with
`RecordNotFound` and leaves the post-adjust state unchanged — no delta is
ever applied twice. -/
theorem C5_adjust_at_most_once (now now2 rid a a2 : Nat) (s : LimiterState)
    (r : ResRecord) :
    ((∀ rec ∈ s.records, rec.rid ≠ rid) →
        adjust now rid a s = (.error .RecordNotFound, s)) ∧
    (s.records.find? (fun r2 => r2.rid == rid) = some r →
        live now ⟨r.ts, 0, none⟩ = false →
        adjust now rid a s = (.error .RecordNotFound, s)) ∧
    ((adjust now rid a s).1 = .ok () →
        adjust now2 rid a2 (adjust now rid a s).2 =
          (.error .RecordNotFound, (adjust now rid a s).2)) := by
  refine ⟨fun h => adjust_not_found h, ?_, ?_⟩
  · intro hfind hdead
    unfold adjust
    rw [hfind]
    simp only
    rw [if_neg (by simp [hdead])]
  · intro hok
    rcases hf : s.records.find? (fun r2 => r2.rid == rid) with _ | r2
    · exfalso
      unfold adjust at hok
      rw [hf] at hok
      exact absurd hok (by simp)
    · by_cases hl2 : live now ⟨r2.ts, 0, none⟩ = true
      · have hpost : (adjust now rid a s).2.records =
            s.records.filter (fun x => x.rid != rid) := by
          unfold adjust
          rw [hf]
          simp only
          rw [if_pos hl2]
        apply adjust_not_found
        intro rec hrec
        rw [hpost] at hrec
        exact bne_iff_ne.mp (List.mem_filter.mp hrec).2
      · exfalso
        unfold adjust at hok
        rw [hf] at hok
        simp only at hok
        rw [if_neg hl2] at hok
        exact absurd hok (by simp)

/-- Witness for C5: after `acquire(input=5000, output_estimate=1000)` and a
successful `adjust(0, 1500)`, a second `adjust` of record 0 fails with
`RecordNotFound` and changes nothing. -/
theorem C5_adjust_at_most_once_witness :
    adjust 20 0 1200 (adjust 10 0 1500
        (tryAcquireSplit 100 10000 2000 0 5000 (some 1000) initState).2).2 =
      (.error .RecordNotFound,
       (adjust 10 0 1500
         (tryAcquireSplit 100 10000 2000 0 5000 (some 1000) initState).2).2) :=
  (C5_adjust_at_most_once 10 20 0 1500 1200
      (tryAcquireSplit 100 10000 2000 0 5000 (some 1000) initState).2
      ⟨0, 0, 0⟩).2.2 (by rfl)

/-- C6: a single request whose cost exceeds a dimension's configured ceiling
itself (not merely the currently available headroom) fails immediately with
the distinct `CostExceedsCeiling` error, leaving the state unchanged — it is
never admitted, never blocked and never enqueued. -/
theorem C6_cost_exceeds_ceiling_fails_fast
    (rpm tpm itpm otpm now tokens inp : Nat) (out : Option Nat)
    (s : LimiterState) :
    (tpm < tokens →
        tryAcquireUnified rpm tpm now tokens s = (.err .CostExceedsCeiling, s)) ∧
    (itpm < inp ∨ otpm < out.getD 0 →
        tryAcquireSplit rpm itpm otpm now inp out s =
          (.err .CostExceedsCeiling, s)) := by
  constructor
  · intro h
    unfold tryAcquireUnified
    rw [if_pos (Or.inl h)]
  · intro h
    unfold tryAcquireSplit
    rcases h with h | h
    · rw [if_pos (Or.inl h)]
    · rw [if_pos (Or.inr (Or.inl h))]

/-- Witness for C6 at the spec scenario: `tpm=1000`;
`acquire(tokens=1200)` fails immediately with `CostExceedsCeiling`. -/
theorem C6_cost_exceeds_ceiling_fails_fast_witness :
    tryAcquireUnified 100 1000 0 1200 initState =
      (.err .CostExceedsCeiling, initState) :=
  (C6_cost_exceeds_ceiling_fails_fast 100 1000 10000 2000 0 1200 0 none
      initState).1 (by decide)

/-! ### Connection-layer retry lemmas -/

/-- If the first `k` attempts (starting at attempt `a`) fail transiently and
attempt `a + k` succeeds, the retry loop returns the success, having slept
exactly the exponential-backoff delays of the failed attempts. -/
theorem retryGo_success (α : Type) (cfg : RetryConfig)
    (call : Nat → CallOutcome α) (v : α) :
    ∀ (k a fuel : Nat), (∀ j, j < k → call (a + j) = .transient) →
      call (a + k) = .success v → k ≤ fuel →
      retryGo cfg call a fuel =
        (.ok v, (List.range k).map (fun i => backoffDelay cfg (a + i)))
  | 0, a, fuel, _, hsucc, _ => by
      rw [Nat.add_zero] at hsucc
      cases fuel with
      | zero => rw [retryGo, hsucc]; rfl
      | succ f => rw [retryGo, hsucc]; rfl
  | k + 1, a, fuel, htr, hsucc, hk => by
      have h0 : call a = .transient := by
        have := htr 0 (Nat.succ_pos k)
        rwa [Nat.add_zero] at this
      rcases fuel with _ | f
      · omega
      · have ih := retryGo_success α cfg call v k (a + 1) f
          (fun j hj => by
            have := htr (j + 1) (by omega)
            rwa [show a + (j + 1) = a + 1 + j by omega] at this)
          (by rwa [show a + 1 + k = a + (k + 1) by omega])
          (by omega)
        rw [retryGo, h0]
        simp only [ih]
        rw [List.range_succ_eq_map, List.map_cons, List.map_map, Nat.add_zero]
        have hmap :
            List.map ((fun i => backoffDelay cfg (a + i)) ∘ Nat.succ)
                (List.range k) =
              List.map (fun i => backoffDelay cfg (a + 1 + i)) (List.range k) :=
          List.map_congr_left (fun i _ => by
            simp only [Function.comp_apply]
            exact congrArg (backoffDelay cfg) (by omega))
        rw [hmap]
        simp only [Nat.add_zero]

/-- If every attempt the fuel allows fails transiently, the retry loop
surfaces `ConnectionFailure`. -/
theorem retryGo_exhaust (α : Type) (cfg : RetryConfig)
    (call : Nat → CallOutcome α) :
    ∀ (fuel a : Nat), (∀ j, j ≤ fuel → call (a + j) = .transient) →
      (retryGo cfg call a fuel).1 = .error .ConnectionFailure
  | 0, a, h => by
      have h0 : call a = .transient := by
        have := h 0 (Nat.le_refl 0)
        rwa [Nat.add_zero] at this
      rw [retryGo, h0]
  | f + 1, a, h => by
      have h0 : call a = .transient := by
        have := h 0 (Nat.zero_le _)
        rwa [Nat.add_zero] at this
      rw [retryGo, h0]
      exact retryGo_exhaust α cfg call f (a + 1) (fun j hj => by
        have := h (j + 1) (by omega)
        rwa [show a + (j + 1) = a + 1 + j by omega] at this)

/-- C7: the Connection Layer retries transient store failures with delay
`base_delay * 2 ^ attempt` (capped) for up to `max_retries` attempts before
surfacing `ConnectionFailure`, while non-transient errors surface
immediately without retry; in particular a call that fails transiently on
the first `k` attempts and succeeds on attempt `k < max_retries` returns the
success to the caller with no error visible, having slept exactly the
backoff delays of the failed attempts. -/
theorem C7_retry_with_backoff {α : Type} (cfg : RetryConfig)
    (call : Nat → CallOutcome α) (v : α) (k : Nat) (e : Err) :
    (k < cfg.max_retries → (∀ j, j < k → call j = .transient) →
        call k = .success v →
        executeWithRetry cfg call =
          (.ok v, (List.range k).map (backoffDelay cfg))) ∧
    (call 0 = .fatal e → executeWithRetry cfg call = (.error e, [])) ∧
    ((∀ j, j < cfg.max_retries → call j = .transient) → 0 < cfg.max_retries →
        (executeWithRetry cfg call).1 = .error .ConnectionFailure) := by
  refine ⟨?_, ?_, ?_⟩
  · intro hk htr hsucc
    unfold executeWithRetry
    have heq := retryGo_success α cfg call v k 0 (cfg.max_retries - 1)
      (fun j hj => by rw [Nat.zero_add]; exact htr j hj)
      (by rwa [Nat.zero_add]) (by omega)
    rw [heq]
    simp only [Nat.zero_add]
  · intro h0
    unfold executeWithRetry
    cases hm : cfg.max_retries - 1 with
    | zero => rw [retryGo, h0]
    | succ f => rw [retryGo, h0]
  · intro htr hpos
    unfold executeWithRetry
    exact retryGo_exhaust α cfg call (cfg.max_retries - 1) 0 (fun j hj => by
      rw [Nat.zero_add]
      exact htr j (by omega))

/-- Witness for C7 at the spec scenario: a store call failing transiently
twice then succeeding on the third attempt, with `max_retries=3`, yields the
success with no error visible and the two backoff delays slept. -/
theorem C7_retry_with_backoff_witness :
    executeWithRetry ⟨3, 1/10, 5⟩
        (fun i => if i < 2 then CallOutcome.transient else .success (42 : Nat)) =
      (.ok 42, (List.range 2).map (backoffDelay ⟨3, 1/10, 5⟩)) :=
  (C7_retry_with_backoff ⟨3, 1/10, 5⟩
      (fun i => if i < 2 then CallOutcome.transient else .success (42 : Nat))
      42 2 .Timeout).1 (by decide)
    (fun j hj => by interval_cases j <;> rfl) (by rfl)

/-! ### Configuration validation and the result model -/

/-- C8: a contradictory limit configuration — here both a unified `tpm` and
a split `input_tpm` supplied, so that it is not the case that exactly one
TPM mode is active — raises `InvalidConfiguration` at construction time;
and `InvalidConfiguration` is never produced by `acquire` (either mode) or
`adjust` at call time (`status` has no error channel at all by its type). -/
theorem C8_invalid_configuration_at_construction_only
    (rpm t i : Nat) (oo : Option Nat)
    (tpm itpm otpm now tokens inp rid a2 now3 : Nat) (out : Option Nat)
    (s : LimiterState) :
    validateConfig rpm (some t) (some i) oo = .error .InvalidConfiguration ∧
    (tryAcquireUnified rpm tpm now tokens s).1 ≠ .err .InvalidConfiguration ∧
    (tryAcquireSplit rpm itpm otpm now inp out s).1 ≠
      .err .InvalidConfiguration ∧
    (adjust now3 rid a2 s).1 ≠ .error .InvalidConfiguration := by
  refine ⟨?_, ?_, ?_, ?_⟩
  · cases oo <;> rfl
  · unfold tryAcquireUnified
    by_cases hc : tpm < tokens ∨ rpm < 1
    · rw [if_pos hc]
      simp
    · rw [if_neg hc]
      by_cases hd : (blockedDimsU rpm tpm now tokens s).isEmpty = true
      · rw [if_pos hd]
        simp
      · rw [if_neg hd]
        simp
  · unfold tryAcquireSplit
    by_cases hc : itpm < inp ∨ otpm < out.getD 0 ∨ rpm < 1
    · rw [if_pos hc]
      simp
    · rw [if_neg hc]
      by_cases hd : (blockedDimsS rpm itpm otpm now inp out s).isEmpty = true
      · rw [if_pos hd]
        simp
      · rw [if_neg hd]
        simp
  · rcases hf : s.records.find? (fun r2 => r2.rid == rid) with _ | r2
    · unfold adjust
      rw [hf]
      simp
    · unfold adjust
      rw [hf]
      simp only
      by_cases hl : live now3 ⟨r2.ts, 0, none⟩ = true
      · rw [if_pos hl]
        simp
      · rw [if_neg hl]
        simp

/-- Witness for C8: `tpm=1000` and `input_tpm=4000000` supplied together is
rejected at construction with `InvalidConfiguration`. -/
theorem C8_invalid_configuration_at_construction_only_witness :
    validateConfig 100 (some 1000) (some 4000000) none =
      .error .InvalidConfiguration :=
  (C8_invalid_configuration_at_construction_only 100 1000 4000000 none
      1000 4000000 128000 0 0 0 0 0 0 none initState).1

/-- C9: every successful `acquire` returns an `AcquireResult` carrying the
amounts actually reserved, and the `record_id` is present exactly in
split/adjustable mode: a unified-mode admission returns no `record_id`,
while a split-mode admission returns the freshly issued `record_id`, and
that id is usable by `adjust` (an `adjust` of it within the window
succeeds). -/
theorem C9_record_id_iff_split_mode
    (rpm tpm itpm otpm now tokens inp actual now2 : Nat) (out : Option Nat)
    (s : LimiterState) :
    (∀ r s2, tryAcquireUnified rpm tpm now tokens s = (.ok r, s2) →
        r = ⟨none, tokens, 0⟩) ∧
    (∀ r s2, tryAcquireSplit rpm itpm otpm now inp out s = (.ok r, s2) →
        r.record_id = some s.nextRid ∧ r.reserved_input = inp ∧
          r.reserved_output = out.getD 0) ∧
    (∀ r s2, tryAcquireSplit rpm itpm otpm now inp out s = (.ok r, s2) →
        now2 < now + 60 →
        (adjust now2 s.nextRid actual s2).1 = .ok ()) := by
  refine ⟨?_, ?_, ?_⟩
  · intro r s2 heq
    unfold tryAcquireUnified at heq
    by_cases hc : tpm < tokens ∨ rpm < 1
    · rw [if_pos hc] at heq
      exact absurd (congrArg Prod.fst heq) (by simp)
    · rw [if_neg hc] at heq
      by_cases hd : (blockedDimsU rpm tpm now tokens s).isEmpty = true
      · rw [if_pos hd] at heq
        have := congrArg Prod.fst heq
        simp only at this
        exact (Outcome.ok.inj this).symm
      · rw [if_neg hd] at heq
        exact absurd (congrArg Prod.fst heq) (by simp)
  · intro r s2 heq
    unfold tryAcquireSplit at heq
    by_cases hc : itpm < inp ∨ otpm < out.getD 0 ∨ rpm < 1
    · rw [if_pos hc] at heq
      exact absurd (congrArg Prod.fst heq) (by simp)
    · rw [if_neg hc] at heq
      by_cases hd : (blockedDimsS rpm itpm otpm now inp out s).isEmpty = true
      · rw [if_pos hd] at heq
        have := congrArg Prod.fst heq
        simp only at this
        have hr := (Outcome.ok.inj this).symm
        subst hr
        exact ⟨rfl, rfl, rfl⟩
      · rw [if_neg hd] at heq
        exact absurd (congrArg Prod.fst heq) (by simp)
  · intro r s2 heq hlive
    unfold tryAcquireSplit at heq
    by_cases hc : itpm < inp ∨ otpm < out.getD 0 ∨ rpm < 1
    · rw [if_pos hc] at heq
      exact absurd (congrArg Prod.fst heq) (by simp)
    · rw [if_neg hc] at heq
      by_cases hd : (blockedDimsS rpm itpm otpm now inp out s).isEmpty = true
      · rw [if_pos hd] at heq
        have hs2 := (congrArg Prod.snd heq).symm
        subst hs2
        have hfind :
            (List.find? (fun r2 => r2.rid == s.nextRid)
              (⟨s.nextRid, out.getD 0, now⟩ :: s.records)) =
              some ⟨s.nextRid, out.getD 0, now⟩ := by
          simp [List.find?]
        unfold adjust
        rw [hfind]
        simp only
        rw [if_pos (by simp only [live, decide_eq_true_eq]; exact hlive)]
      · rw [if_neg hd] at heq
        exact absurd (congrArg Prod.fst heq) (by simp)

/-- Witness for C9: a concrete split-mode `acquire` returns `record_id` 0
and an `adjust` of that id inside the window succeeds. -/
theorem C9_record_id_iff_split_mode_witness :
    (adjust 10 initState.nextRid 1900
        (tryAcquireSplit 360 4000000 128000 0 5000 (some 2048) initState).2).1 =
      .ok () :=
  (C9_record_id_iff_split_mode 360 100000 4000000 128000 0 5000 5000 1900 10
      (some 2048) initState).2.2 ⟨some 0, 5000, 2048⟩
    (tryAcquireSplit 360 4000000 128000 0 5000 (some 2048) initState).2
    (by rfl) (by decide)

/-- C10: the package's public surface is exactly the six names of its
`__all__` list — `AcquireResult`, `RateLimitConfig`, `RateLimitStatus`,
`RateLimiter`, `RedisConnectionManager`, `RetryConfig` — and the only
exported connection manager (name ending in `ConnectionManager`) is the
Redis-specific `RedisConnectionManager`: the coordination store the spec
treats as an opaque backend is concretely Redis. -/
theorem C10_public_surface_is_redis_backed :
    module_all = ["AcquireResult", "RateLimitConfig", "RateLimitStatus",
      "RateLimiter", "RedisConnectionManager", "RetryConfig"] ∧
    module_all.filter
        (fun nm => "ConnectionManager".data.isSuffixOf nm.data) =
      ["RedisConnectionManager"] :=
  ⟨rfl, by decide⟩

end LLMRL
